import Mathlib

/-!
# Verification of the runtypes validation core

A shallow embedding of the runtypes library (pelotom/runtypes) together with
proofs of the behavioural claims made by its specification.

The repository carries two generations of the library:

* the simple raising generation (`src/index.ts`): a `Runtype` bundles a
  `coerce` function that either returns the value or throws a
  `ValidationError`; `validate` converts the raise into a tagged `Result`
  and `guard` is `validate(x).success`.  `Union`, `Tuple`, `Lazy` and the
  primitive runtypes live here.
* the keyed generation (`src/types/record.ts`, `src/asynccontract.ts`):
  results carry an optional dot-delimited `key`, records have
  partial/readonly/exact flags, and a call-scoped visited table guards
  validation of cyclic data.  The engine itself (`create`/`innerValidate`
  in `runtype.ts`) is not part of the available sources; where a claim
  depends on it, it is modelled from the specification and flagged as such.

JavaScript values are modelled by an inductive type `ValueV`; machine
numbers are modelled by `Int` (no claim depends on float semantics);
thrown `ValidationError`s are modelled by `Except String`.
-/

namespace Runtypes

/-- A JavaScript runtime value: booleans, numbers, strings, `undefined`,
`null`, arrays and plain objects (an association list of string keys in
insertion order, as `for..in` iterates them). -/
inductive ValueV where
  | vbool (b : Bool)
  | vnum (n : Int)
  | vstr (s : String)
  | vundefined
  | vnull
  | varr (elems : List ValueV)
  | vobj (entries : List (String × ValueV))

/-- JavaScript `typeof`: note `typeof null`, `typeof []` and `typeof {}`
are all `"object"`. -/
def typeofV : ValueV → String
  | .vbool _ => "boolean"
  | .vnum _ => "number"
  | .vstr _ => "string"
  | .vundefined => "undefined"
  | .vnull => "object"
  | .varr _ => "object"
  | .vobj _ => "object"

/-- `x === undefined`. -/
def isUndefV : ValueV → Bool
  | .vundefined => true
  | _ => false

/-- `x === null || x === undefined`. -/
def isNullish : ValueV → Bool
  | .vnull => true
  | .vundefined => true
  | _ => false

/-! ## The raising generation (src/index.ts) -/

/-- `Result` of src/index.ts: `{success:true, value}` or
`{success:false, message}` (this generation has no `key` field). -/
inductive ResultV where
  | success (value : ValueV)
  | failure (message : String)

/-- The `success` tag of a result. -/
def ResultV.isSuccess : ResultV → Bool
  | .success _ => true
  | .failure _ => false

/-- A runtype of src/index.ts is built by `runtype(coerce)` from its
`coerce` function alone; `validate` and `guard` are derived below exactly
as the `runtype` constructor derives them. -/
structure RuntypeV where
  coerce : ValueV → Except String ValueV

/-- `validate` (src/index.ts lines 324-331): run `coerce` inside
`try`/`catch`; on success return `{success:true, value}` where `value` is
the original argument (the coerced return is discarded), on a raise return
`{success:false, message}` with the raised message. -/
def RuntypeV.validate (rt : RuntypeV) (value : ValueV) : ResultV :=
  match rt.coerce value with
  | .ok _ => .success value
  | .error message => .failure message

/-- `guard` (src/index.ts lines 333-335): `validate(x).success`. -/
def RuntypeV.guard (rt : RuntypeV) (x : ValueV) : Bool :=
  (rt.validate x).isSuccess

/-- `Anything` (src/index.ts line 67): `runtype(x => x)`. -/
def Anything : RuntypeV := ⟨fun x => .ok x⟩

/-- `Number` (src/index.ts lines 115-119). -/
def NumberRT : RuntypeV :=
  ⟨fun x =>
    if typeofV x != "number" then .error ("Expected number but was " ++ typeofV x)
    else .ok x⟩

/-- `String` (src/index.ts lines 124-128). -/
def StringRT : RuntypeV :=
  ⟨fun x =>
    if typeofV x != "string" then .error ("Expected string but was " ++ typeofV x)
    else .ok x⟩

/-- `Boolean` (src/index.ts lines 106-110). -/
def BooleanRT : RuntypeV :=
  ⟨fun x =>
    if typeofV x != "boolean" then .error ("Expected boolean but was " ++ typeofV x)
    else .ok x⟩

/-- `Undefined` (src/index.ts lines 79-83): fails unless `x === undefined`. -/
def UndefinedRT : RuntypeV :=
  ⟨fun x =>
    if !(isUndefV x) then .error ("Expected undefined but was " ++ typeofV x)
    else .ok x⟩

/-- The element loop of `arr` (src/index.ts lines 148-149):
`for (const x of xs) v.coerce(x)`, raising at the first failing element. -/
def coerceEach (v : RuntypeV) : List ValueV → Except String Unit
  | [] => .ok ()
  | x :: xs =>
    match v.coerce x with
    | .ok _ => coerceEach v xs
    | .error m => .error m

/-- `arr` (src/index.ts lines 144-152): reject non-arrays, coerce each
element, return the original array. -/
def arr (v : RuntypeV) : RuntypeV :=
  ⟨fun xs =>
    match xs with
    | .varr elems =>
      match coerceEach v elems with
      | .ok _ => .ok xs
      | .error m => .error m
    | _ => .error ("Expected array but was " ++ typeofV xs)⟩

/-- The positional loop of `Tuple` (src/index.ts lines 222-223):
`for (let i = 0; i < runtypes.length; i++) runtypes[i].coerce(xs[i])`.
Indexing past the end of a JavaScript array yields `undefined`, which is
mirrored here although the length check makes that case unreachable. -/
def coercePositional : List RuntypeV → List ValueV → Except String Unit
  | [], _ => .ok ()
  | rt :: rts, x :: xs =>
    match rt.coerce x with
    | .ok _ => coercePositional rts xs
    | .error m => .error m
  | rt :: rts, [] =>
    match rt.coerce .vundefined with
    | .ok _ => coercePositional rts []
    | .error m => .error m

/-- `Tuple` (src/index.ts lines 218-225), after the trailing-boolean
sniffing has produced the component list `runtypes` and the `strict` flag
(`strict` defaults to `false` when no boolean is supplied):
first `arr(Anything).coerce(x)` (the array check), then the length check
(`strict ? xs.length !== runtypes.length : xs.length < runtypes.length`),
then the positional loop, returning the original value. -/
def TupleRT (runtypes : List RuntypeV) (strict : Bool) : RuntypeV :=
  ⟨fun x =>
    match (arr Anything).coerce x with
    | .error m => .error m
    | .ok _ =>
      match x with
      | .varr xs =>
        let lengthBad : Bool :=
          if strict then xs.length != runtypes.length
          else decide (xs.length < runtypes.length)
        if lengthBad then
          .error ("Expected array of " ++ toString runtypes.length ++
            " but was " ++ toString xs.length)
        else
          match coercePositional runtypes xs with
          | .ok _ => .ok x
          | .error m => .error m
      | _ =>
        -- unreachable: arr(Anything) only succeeds on arrays
        .error ("Expected array but was " ++ typeofV x)⟩

/-- The alternative loop of `Union` (src/index.ts lines 292-297):
`for (const {guard} of runtypes) if (guard(x)) return x;` followed by
`throw` of an Error whose message is `No alternatives were matched`. -/
def unionCoerce : List RuntypeV → ValueV → Except String ValueV
  | [], _ => .error "No alternatives were matched"
  | rt :: rts, x => if rt.guard x then .ok x else unionCoerce rts x

/-- `Union` (src/index.ts lines 291-298). -/
def UnionRT (runtypes : List RuntypeV) : RuntypeV :=
  ⟨fun x => unionCoerce runtypes x⟩

/-- `Optional` (src/index.ts lines 303-305): `Union(runtype, Undefined)`. -/
def OptionalRT (rt : RuntypeV) : RuntypeV := UnionRT [rt, UndefinedRT]

/-! ## Lazy (src/index.ts lines 310-317)

`Lazy(fn)` closes over a mutable memo slot `cached`; the slot (together
with an instrumentation counter of how many times `fn` has been invoked)
is made explicit as a state record threaded through each use. -/

/-- The memo slot of one `Lazy` runtype, plus a counter of `fn`
invocations (instrumentation only: the counter influences nothing). -/
structure LazyState where
  cached : Option RuntypeV
  calls : Nat

/-- Constructing `Lazy(fn)` allocates the unset slot; `fn` is not invoked. -/
def mkLazy : LazyState := ⟨none, 0⟩

/-- One use of the `coerce` of the Lazy runtype
(`if (!cached) cached = fn(); return cached.coerce(x)`): resolve and
record the descriptor on first use, delegate to the cached one afterwards.
Returns the coercion outcome and the updated slot. -/
def lazyCoerce (fn : Unit → RuntypeV) (st : LazyState) (x : ValueV) :
    Except String ValueV × LazyState :=
  match st.cached with
  | none =>
    let c := fn ()
    (c.coerce x, ⟨some c, st.calls + 1⟩)
  | some c => (c.coerce x, st)

/-! ## The keyed generation: records (src/types/record.ts)

`InternalRecord(fields, isPartial, isReadonly, isExact)` builds its check
from a fields mapping and three flags (`isReadonly` does not influence
validation).  Nested field validation goes through `innerValidate` of
`runtype.ts`, which is not among the available sources; a field descriptor
is therefore embedded as the data the record check consumes from it: its
reflect `tag`, the text `show` renders for it, and the result
`innerValidate` yields for it on a given value.  (The flag `isPartial` is
spelled `isPart` here.) -/

/-- A `Result` of the keyed generation: success, or failure with a
`message` and an optional dot-delimited `key`. -/
inductive RResult where
  | rsuccess (value : ValueV)
  | rfailure (message : String) (key : Option String)

/-- The descriptor of a record field, as `InternalRecord` consumes it:
`tag` is `reflect.tag`; `shown` is the text `show` renders for the type
position of the field; `validate v` is the result `innerValidate` produces
for the descriptor of the field on `v`. -/
structure FieldRT where
  tag : String
  shown : String
  validate : ValueV → RResult

/-- The keys `for (const key in x)` iterates: own enumerable keys of an
object in insertion order; index keys of an array or a string; nothing for
other primitives and for `null`/`undefined`. -/
def jsKeys : ValueV → List String
  | .vobj entries => entries.map Prod.fst
  | .varr elems => (List.range elems.length).map toString
  | .vstr s => (List.range s.length).map toString
  | _ => []

/-- Modelled from the spec: `hasKey` of src/util.ts is not under src/.
Per its uses it tests that the argument is of object type, is not null,
and contains the key. -/
def hasKey (key : String) (x : ValueV) : Bool :=
  match x with
  | .vobj entries => (entries.lookup key).isSome
  | .varr elems => ((List.range elems.length).map toString).contains key
  | _ => false

/-- Property read `x[key]` on an object (`undefined` when absent).
The record check only reads properties of object inputs. -/
def jGet (x : ValueV) (key : String) : ValueV :=
  match x with
  | .vobj entries => ((entries.lookup key).getD .vundefined)
  | _ => .vundefined

/-- The field loop of `InternalRecord` (record.ts lines 109-128): for each
declared field in order, a field is optional when the record is partial or
the reflect tag of the field is `optional`; a present `undefined` value on an
optional field is skipped; otherwise the field descriptor validates the
property, any failure key being prefixed with the field name
(the nested key, when truthy, is appended to the field name after a dot —
note an empty nested key is falsy); an absent required field fails with the missing-property
message and the field name as key. -/
def checkFields (isPart : Bool) (x : ValueV) : List (String × FieldRT) → RResult
  | [] => .rsuccess x
  | (key, rt) :: rest =>
    let isOptional := isPart || rt.tag == "optional"
    if hasKey key x then
      if isOptional && isUndefV (jGet x key) then
        checkFields isPart x rest
      else
        match rt.validate (jGet x key) with
        | .rsuccess _ => checkFields isPart x rest
        | .rfailure message nestedKey =>
          .rfailure message (some (match nestedKey with
            | some nk => if nk == "" then key else key ++ "." ++ nk
            | none => key))
    else if !isOptional then
      .rfailure ("Expected \"" ++ key ++ "\" property to be present, but was missing")
        (some key)
    else
      checkFields isPart x rest

/-- The exact-record loop of `InternalRecord` (record.ts lines 96-102):
the first input key with no entry in the fields mapping
(`for (const key in x) if (!fields[key]) ...`). -/
def findExtraKey (fields : List (String × FieldRT)) (x : ValueV) : Option String :=
  (jsKeys x).find? (fun key => (fields.lookup key).isNone)

/-- The record-type text `show` renders for the reflect value built at
record.ts line 105 from the tag `record` and the fields alone (its
`isPartial`/`isReadonly` are absent, hence falsy): each field name, a `?`
after each optional-tagged field, then the rendered field type; an empty
brace pair when there are no fields. -/
def showRecordFields (fields : List (String × FieldRT)) : String :=
  match fields with
  | [] => "\x7b\x7d"
  | _ =>
    "\x7b " ++ String.intercalate " " (fields.map (fun f =>
      f.1 ++ (if f.2.tag == "optional" then "?" else "") ++ ": " ++ f.2.shown ++ ";")) ++
    " \x7d"

/-- String interpolation `\x7bx\x7d` of the nullish value rejected at
record.ts line 106. -/
def showNullishV : ValueV → String
  | .vnull => "null"
  | .vundefined => "undefined"
  | _ => ""

/-- The whole check `InternalRecord(fields, isPart, isReadonly, isExact)`
installs (record.ts lines 95-131), in order: the exact-record key sweep,
the nullish rejection, then the field loop. -/
def recordCheck (fields : List (String × FieldRT)) (isPart isExact : Bool)
    (x : ValueV) : RResult :=
  match (if isExact then findExtraKey fields x else none) with
  | some key => .rfailure ("Additional field " ++ key) none
  | none =>
    if isNullish x then
      .rfailure ("Expected " ++ showRecordFields fields ++ ", but was " ++ showNullishV x)
        none
    else
      checkFields isPart x fields

/-- A field the loop of `checkFields` passes over without failing. -/
def fieldPasses (isPart : Bool) (x : ValueV) (f : String × FieldRT) : Bool :=
  let isOptional := isPart || f.2.tag == "optional"
  if hasKey f.1 x then
    if isOptional && isUndefV (jGet x f.1) then true
    else
      match f.2.validate (jGet x f.1) with
      | .rsuccess _ => true
      | .rfailure _ _ => false
  else isOptional

/-! ## The async contract (src/asynccontract.ts)

`AsyncContract(argTypes, returnType).enforce(f)` wraps `f`.  Parameter
descriptors enter the wrapper only through `innerValidate` (giving a keyed
result whose success carries the coerced value) and the return descriptor
only through `innerGuard` (giving the failure when the value is invalid,
nothing when it is valid); both engine functions live in the unavailable
`runtype.ts`, so a descriptor is embedded as that function directly. -/

/-- A parameter descriptor, as the wrapper consumes it: the result
`innerValidate` yields on a value. -/
def ArgRT : Type := ValueV → RResult

/-- The return descriptor, as the wrapper consumes it: `innerGuard`
applied to the resolved value — `some (message, key)` when invalid,
`none` when valid. -/
def RetRT : Type := ValueV → Option (String × Option String)

/-- A `ValidationError`: its message and optional key. -/
structure CErr where
  message : String
  key : Option String

/-- A settled promise: resolved with a value or rejected with an error. -/
inductive PResult where
  | presolved (v : ValueV)
  | prejected (e : CErr)

/-- What the wrapped function returns: a promise, or any other value. -/
inductive FnRet where
  | retPromise (p : PResult)
  | retOther (v : ValueV)

mutual

/-- `\x24\x7breturnedPromise\x7d` string conversion of a JavaScript value,
used in the promise-shape rejection message. -/
def jsToString : ValueV → String
  | .vbool b => if b then "true" else "false"
  | .vnum n => toString n
  | .vstr s => s
  | .vundefined => "undefined"
  | .vnull => "null"
  | .varr elems => String.intercalate "," (jsToStringList elems)
  | .vobj _ => "[object Object]"

/-- String conversions of the elements of an array value. -/
def jsToStringList : List ValueV → List String
  | [] => []
  | v :: vs => jsToString v :: jsToStringList vs

end

/-- The argument loop of `enforce` (asynccontract.ts lines 25-32): each
argument in declaration order is validated against its positional
descriptor, the coerced value replacing it (`args[i] = result.value`);
the first failure aborts with its message and key.  Arguments beyond the
declared parameters pass through untouched.  The runs-out-of-arguments
case is unreachable behind the arity guard and is modelled as the same
abort. -/
def coerceArgs : List ArgRT → List ValueV → Except (String × Option String) (List ValueV)
  | [], rest => .ok rest
  | t :: ts, v :: vs =>
    match t v with
    | .rsuccess w =>
      match coerceArgs ts vs with
      | .ok ws => .ok (w :: ws)
      | .error e => .error e
    | .rfailure m k => .error (m, k)
  | _ :: _, [] => .error ("Expected more arguments", none)

/-- `AsyncContract(argTypes, returnType).enforce(f)` applied to `args`
(asynccontract.ts lines 16-48): reject on arity shortfall before anything
else; validate/coerce the arguments positionally; require the wrapped
function result to be a promise, rejecting otherwise with the shape
message; on resolution check the value against the return descriptor —
reject with its failure, or pass the resolved value through unchanged.  A
rejection of the own promise of the wrapped function passes through
(`then` does not run). -/
def enforce (argTypes : List ArgRT) (returnType : RetRT)
    (f : List ValueV → FnRet) (args : List ValueV) : PResult :=
  if args.length < argTypes.length then
    .prejected ⟨"Expected " ++ toString argTypes.length ++
      " arguments but only received " ++ toString args.length, none⟩
  else
    match coerceArgs argTypes args with
    | .error (m, k) => .prejected ⟨m, k⟩
    | .ok coerced =>
      match f coerced with
      | .retOther v =>
        .prejected ⟨"Expected function to return a promise, but instead got " ++
          jsToString v, none⟩
      | .retPromise (.prejected e) => .prejected e
      | .retPromise (.presolved v) =>
        match returnType v with
        | some (m, k) => .prejected ⟨m, k⟩
        | none => .presolved v

/-! ## The cycle-guarded validation engine over stored values

Modelled from the spec: `innerValidate` and the visited table of
`runtype.ts` are not under src/ (record.ts and asynccontract.ts only call
them).  Spec section 4.2: before delegating to the own check logic of a
descriptor the engine consults the call-scoped visited table of
(descriptor identity, value identity) pairs; a pair already in progress
returns a tentative success immediately; otherwise the pair is marked and
the descriptor logic runs, nested results bubbling up with their keys
prefixed by the structural combinators.

Cyclic data cannot be an inductive value, so values live in a store and
refer to each other by address; likewise descriptors live in an
environment and refer to each other by index (a recursive descriptor
graph is what the memo slot of `Lazy` ties together).  The visited table is a
finite set of (descriptor index, address) pairs, threaded through the
recursion as the shared mutable `Map` is.  The recursion carries fuel;
the theorems below show the fuel `env.length * store.length + 1` is never
exhausted, which is the termination guarantee. -/

/-- A stored descriptor: number, string, optional (underlying descriptor
by environment index), or a record (field name to descriptor index, with
the partial and exact flags). -/
inductive GType where
  | gnumber
  | gstring
  | goptional (inner : Nat)
  | grecord (fields : List (String × Nat)) (isPart : Bool) (isExact : Bool)
deriving DecidableEq

/-- A stored value: primitives, or an object whose fields hold addresses
of other stored values — cycles arise when an address chain returns to
itself. -/
inductive GVal where
  | gundefined
  | gnull
  | gnum (n : Int)
  | gstr (s : String)
  | gobj (entries : List (String × Nat))
deriving DecidableEq

/-- Engine result: success, or failure with message and optional key. -/
inductive GResult where
  | gok
  | gfail (message : String) (key : Option String)
deriving DecidableEq

/-- `typeof` of a stored value. -/
def gtypeof : GVal → String
  | .gundefined => "undefined"
  | .gnull => "object"
  | .gnum _ => "number"
  | .gstr _ => "string"
  | .gobj _ => "object"

/-- Whether the descriptor at an environment index carries the reflect
tag `optional` (record.ts line 110). -/
def gTagOptional (env : List GType) (fidx : Nat) : Bool :=
  match env[fidx]? with
  | some (.goptional _) => true
  | _ => false

/-- The own fields of a stored value (empty for non-objects). -/
def gObjEntries : GVal → List (String × Nat)
  | .gobj entries => entries
  | _ => []

/-- The exact-record key sweep over a stored value (record.ts lines
96-102): first input key with no declared field. -/
def gFindExtraKey (fields : List (String × Nat)) (v : GVal) : Option String :=
  ((gObjEntries v).map Prod.fst).find? (fun key => (fields.lookup key).isNone)

/-- The record field loop (record.ts lines 109-128) inside the engine:
`recv` is the engine one fuel level down, `entries` the fields of the
input object.  Mirrors `checkFields`, with the visited table threaded through
nested validations. -/
def validateFieldsAux
    (recv : Nat → Nat → Finset (Nat × Nat) → Option (GResult × Finset (Nat × Nat)))
    (env : List GType) (store : List GVal) (isPart : Bool)
    (entries : List (String × Nat)) :
    List (String × Nat) → Finset (Nat × Nat) → Option (GResult × Finset (Nat × Nat))
  | [], visited => some (.gok, visited)
  | (key, fidx) :: rest, visited =>
    match entries.lookup key with
    | some addr =>
      if (isPart || gTagOptional env fidx) = true ∧ store[addr]? = some GVal.gundefined then
        validateFieldsAux recv env store isPart entries rest visited
      else
        match recv fidx addr visited with
        | none => none
        | some (.gok, visited₂) =>
          validateFieldsAux recv env store isPart entries rest visited₂
        | some (.gfail m nestedKey, visited₂) =>
          some (.gfail m (some (match nestedKey with
            | some nk => if nk == "" then key else key ++ "." ++ nk
            | none => key)), visited₂)
    | none =>
      if (isPart || gTagOptional env fidx) = false then
        some (.gfail ("Expected \"" ++ key ++ "\" property to be present, but was missing")
          (some key), visited)
      else
        validateFieldsAux recv env store isPart entries rest visited

/-- Modelled from the spec (section 4.2): the engine.  A pair already in
the visited table returns a tentative success; otherwise the pair is
marked and the own logic of the descriptor runs.  Out-of-range references
fail (a model artifact: well-formed descriptor graphs and stores never
produce them).  Fuel `0` returns `none`. -/
def innerValidateG (env : List GType) (store : List GVal) :
    Nat → Nat → Nat → Finset (Nat × Nat) → Option (GResult × Finset (Nat × Nat))
  | 0, _, _, _ => none
  | fuel + 1, ridx, addr, visited =>
    if (ridx, addr) ∈ visited then some (.gok, visited)
    else
      match env[ridx]?, store[addr]? with
      | some t, some v =>
        let visited' := insert (ridx, addr) visited
        match t with
        | .gnumber =>
          some ((match v with
            | .gnum _ => .gok
            | _ => .gfail ("Expected number but was " ++ gtypeof v) none), visited')
        | .gstring =>
          some ((match v with
            | .gstr _ => .gok
            | _ => .gfail ("Expected string but was " ++ gtypeof v) none), visited')
        | .goptional inner =>
          match v with
          | .gundefined => some (.gok, visited')
          | _ => innerValidateG env store fuel inner addr visited'
        | .grecord fields isPart isExact =>
          match (if isExact then gFindExtraKey fields v else none) with
          | some key => some (.gfail ("Additional field " ++ key) none, visited')
          | none =>
            if v = .gnull ∨ v = .gundefined then
              some (.gfail "Expected record, but was nullish" none, visited')
            else
              validateFieldsAux (innerValidateG env store fuel) env store isPart
                (gObjEntries v) fields visited'
      | _, _ => some (.gfail "invalid reference" none, visited)

/-- The set of all (descriptor index, address) pairs of an environment
and store; the visited table never leaves it. -/
def gPairBound (env : List GType) (store : List GVal) : Finset (Nat × Nat) :=
  Finset.range env.length ×ˢ Finset.range store.length

/-! ## Concrete fixtures used by the witnesses below -/

/-- A string field descriptor (reflect tag `string`). -/
def nameF : FieldRT :=
  ⟨"string", "string", fun v =>
    match v with
    | .vstr _ => .rsuccess v
    | _ => .rfailure ("Expected string but was " ++ typeofV v) none⟩

/-- An `Optional(Number)` field descriptor (reflect tag `optional`). -/
def ageF : FieldRT :=
  ⟨"optional", "number", fun v =>
    match v with
    | .vnum _ => .rsuccess v
    | .vundefined => .rsuccess v
    | _ => .rfailure ("Expected number but was " ++ typeofV v) none⟩

/-- A coerce function that normalizes its input (always returns `0`). -/
def normRT : RuntypeV := ⟨fun _ => .ok (.vnum 0)⟩

/-- A number parameter descriptor for the contract fixtures. -/
def numArg : ArgRT := fun v =>
  match v with
  | .vnum _ => .rsuccess v
  | _ => .rfailure ("Expected number but was " ++ typeofV v) none

/-- A number return descriptor for the contract fixtures. -/
def numRet : RetRT := fun v =>
  match v with
  | .vnum _ => none
  | _ => some ("Expected number but was " ++ typeofV v, none)

/-- A one-node recursive descriptor graph: a record whose required field
`next` is the record itself. -/
def cycEnv : List GType := [.grecord [("next", 0)] false false]

/-- A one-cell cyclic store: an object whose `next` field points back at
itself. -/
def cycStore : List GVal := [.gobj [("next", 0)]]

/-! ## Helper lemmas -/

/-- `guard` is the boolean image of the outcome of `coerce`. -/
theorem guard_eq_coerce (rt : RuntypeV) (x : ValueV) :
    rt.guard x = (match rt.coerce x with | .ok _ => true | .error _ => false) := by
  unfold RuntypeV.guard RuntypeV.validate
  cases rt.coerce x <;> rfl

/-- The union guard is the boolean image of the alternative loop. -/
theorem guard_unionRT (rts : List RuntypeV) (v : ValueV) :
    (UnionRT rts).guard v =
      (match unionCoerce rts v with | .ok _ => true | .error _ => false) := by
  unfold UnionRT RuntypeV.guard RuntypeV.validate
  cases h : unionCoerce rts v <;> simp [h, ResultV.isSuccess]

/-- The union guard is the any-fold of the guards of the alternatives. -/
theorem guard_union_any (rts : List RuntypeV) (v : ValueV) :
    (UnionRT rts).guard v = rts.any (fun rt => rt.guard v) := by
  induction rts with
  | nil => rfl
  | cons rt rts ih =>
    rw [guard_unionRT, List.any_cons]
    simp only [unionCoerce]
    cases h : rt.guard v with
    | true => simp [h]
    | false =>
      simp only [h, Bool.false_eq_true, if_false, Bool.false_or]
      rw [← guard_unionRT, ih]

/-- When no alternative guard matches, the union loop falls through to the
undifferentiated error. -/
theorem unionCoerce_no_match (rts : List RuntypeV) (v : ValueV)
    (h : ∀ rt ∈ rts, rt.guard v = false) :
    unionCoerce rts v = .error "No alternatives were matched" := by
  induction rts with
  | nil => rfl
  | cons rt rts ih =>
    have h0 : rt.guard v = false := h rt (by simp)
    simp only [unionCoerce, h0]
    exact ih (fun r hr => h r (by simp [hr]))

/-- `Anything` accepts every element. -/
theorem coerceEach_anything (xs : List ValueV) : coerceEach Anything xs = .ok () := by
  induction xs with
  | nil => rfl
  | cons x xs ih =>
    have h : Anything.coerce x = .ok x := rfl
    simp only [coerceEach, h]
    exact ih

/-- `arr(Anything)` returns every array unchanged. -/
theorem arr_anything_varr (xs : List ValueV) :
    (arr Anything).coerce (.varr xs) = .ok (.varr xs) := by
  simp [arr, coerceEach_anything]

/-- The tuple coercion on an array, with the array check discharged. -/
theorem tupleRT_coerce_varr (rts : List RuntypeV) (strict : Bool) (xs : List ValueV) :
    (TupleRT rts strict).coerce (.varr xs) =
      (if (if strict then xs.length != rts.length else decide (xs.length < rts.length)) then
        .error ("Expected array of " ++ toString rts.length ++ " but was " ++
          toString xs.length)
      else
        match coercePositional rts xs with
        | .ok _ => .ok (.varr xs)
        | .error m => .error m) := by
  have h := arr_anything_varr xs
  simp only [TupleRT, h]

/-- The positional loop only reads the first `rts.length` elements. -/
theorem coercePositional_take (rts : List RuntypeV) (xs : List ValueV)
    (h : rts.length ≤ xs.length) :
    coercePositional rts xs = coercePositional rts (xs.take rts.length) := by
  induction rts generalizing xs with
  | nil => cases xs <;> rfl
  | cons rt rts ih =>
    cases xs with
    | nil => simp at h
    | cons x xs =>
      simp only [List.length_cons, Nat.add_le_add_iff_right] at h
      simp only [coercePositional, List.take_succ_cons]
      rw [ih xs h]

/-- The positional loop succeeds exactly when every paired component
guard accepts its element. -/
theorem coercePositional_ok_iff (rts : List RuntypeV) (xs : List ValueV)
    (h : rts.length ≤ xs.length) :
    (coercePositional rts xs = .ok ()) ↔
      ((rts.zip xs).all (fun p => p.1.guard p.2)) = true := by
  induction rts generalizing xs with
  | nil => simp [coercePositional]
  | cons rt rts ih =>
    cases xs with
    | nil => simp at h
    | cons x xs =>
      simp only [List.length_cons, Nat.add_le_add_iff_right] at h
      simp only [coercePositional, List.zip_cons_cons, List.all_cons]
      rw [guard_eq_coerce]
      cases hc : rt.coerce x with
      | ok w => simpa using ih xs h
      | error m => simp

/-- Fields the loop passes over leave the tail of the loop unchanged. -/
theorem checkFields_append (isPart : Bool) (x : ValueV) (pre rest : List (String × FieldRT))
    (h : ∀ f ∈ pre, fieldPasses isPart x f = true) :
    checkFields isPart x (pre ++ rest) = checkFields isPart x rest := by
  induction pre with
  | nil => rfl
  | cons f pre ih =>
    have hf : fieldPasses isPart x f = true := h f (by simp)
    have hrest : ∀ g ∈ pre, fieldPasses isPart x g = true := fun g hg => h g (by simp [hg])
    obtain ⟨key, rt⟩ := f
    simp only [List.cons_append]
    cases hk : hasKey key x with
    | false =>
      have hopt : (isPart || rt.tag == "optional") = true := by
        unfold fieldPasses at hf
        simp only [hk, Bool.false_eq_true, if_false] at hf
        exact hf
      simp only [checkFields, hk, hopt, Bool.false_eq_true, if_false, Bool.not_true,
        Bool.false_eq_true]
      exact ih hrest
    | true =>
      cases hskip : ((isPart || rt.tag == "optional") && isUndefV (jGet x key)) with
      | true =>
        simp only [checkFields, hk, hskip, if_true]
        exact ih hrest
      | false =>
        cases hv : rt.validate (jGet x key) with
        | rsuccess w =>
          simp only [checkFields, hk, hskip, hv, if_true, Bool.false_eq_true, if_false]
          exact ih hrest
        | rfailure m k =>
          exfalso
          unfold fieldPasses at hf
          simp only [hk, hskip, hv, if_true, Bool.false_eq_true, if_false] at hf

/-- The visited pairs of an environment and store number
`env.length * store.length`. -/
theorem gPairBound_card (env : List GType) (store : List GVal) :
    (gPairBound env store).card = env.length * store.length := by
  rw [gPairBound, Finset.card_product, Finset.card_range, Finset.card_range]

/-- A pair at which both lookups succeed is a valid pair. -/
theorem mem_gPairBound_of_get {env : List GType} {store : List GVal} {ridx addr : Nat}
    {t : GType} {v : GVal} (ht : env[ridx]? = some t) (hv : store[addr]? = some v) :
    (ridx, addr) ∈ gPairBound env store := by
  have h1 : ridx < env.length := by
    by_contra hc
    push_neg at hc
    rw [List.getElem?_eq_none hc] at ht
    exact Option.noConfusion ht
  have h2 : addr < store.length := by
    by_contra hc
    push_neg at hc
    rw [List.getElem?_eq_none hc] at hv
    exact Option.noConfusion hv
  rw [gPairBound, Finset.mem_product, Finset.mem_range, Finset.mem_range]
  exact ⟨h1, h2⟩

/-- The record field loop of the engine never exhausts fuel that still
covers the unvisited pairs, and only grows the visited table inside the
valid pairs.  `ih` is the same statement for the engine one fuel level
down. -/
theorem gFields_total (env : List GType) (store : List GVal) (fuel : Nat)
    (ih : ∀ ridx addr visited, visited ⊆ gPairBound env store →
      env.length * store.length + 1 ≤ fuel + visited.card →
      ∃ r visited₂, innerValidateG env store fuel ridx addr visited = some (r, visited₂) ∧
        visited ⊆ visited₂ ∧ visited₂ ⊆ gPairBound env store)
    (isPart : Bool) (entries : List (String × Nat)) :
    ∀ fields visited, visited ⊆ gPairBound env store →
      env.length * store.length + 1 ≤ fuel + visited.card →
      ∃ r visited₂,
        validateFieldsAux (innerValidateG env store fuel) env store isPart entries
          fields visited = some (r, visited₂) ∧
        visited ⊆ visited₂ ∧ visited₂ ⊆ gPairBound env store := by
  intro fields
  induction fields with
  | nil =>
    intro visited hsub hbound
    exact ⟨.gok, visited, rfl, Finset.Subset.refl _, hsub⟩
  | cons f rest ihf =>
    obtain ⟨key, fidx⟩ := f
    intro visited hsub hbound
    cases hl : entries.lookup key with
    | none =>
      by_cases hopt : (isPart || gTagOptional env fidx) = false
      · refine ⟨.gfail ("Expected \"" ++ key ++ "\" property to be present, but was missing")
          (some key), visited, ?_, Finset.Subset.refl _, hsub⟩
        simp only [validateFieldsAux, hl]
        rw [if_pos hopt]
      · obtain ⟨r, vis₂, heq, h1, h2⟩ := ihf visited hsub hbound
        refine ⟨r, vis₂, ?_, h1, h2⟩
        simp only [validateFieldsAux, hl]
        rw [if_neg hopt]
        exact heq
    | some addr =>
      by_cases hskip : (isPart || gTagOptional env fidx) = true ∧
          store[addr]? = some GVal.gundefined
      · obtain ⟨r, vis₂, heq, h1, h2⟩ := ihf visited hsub hbound
        refine ⟨r, vis₂, ?_, h1, h2⟩
        simp only [validateFieldsAux, hl]
        rw [if_pos hskip]
        exact heq
      · obtain ⟨r, vis₂, heq, h1, h2⟩ := ih fidx addr visited hsub hbound
        cases r with
        | gok =>
          have hbound₂ : env.length * store.length + 1 ≤ fuel + vis₂.card := by
            have := Finset.card_le_card h1
            omega
          obtain ⟨r₃, vis₃, heq₃, h3, h4⟩ := ihf vis₂ h2 hbound₂
          refine ⟨r₃, vis₃, ?_, Finset.Subset.trans h1 h3, h4⟩
          simp only [validateFieldsAux, hl]
          rw [if_neg hskip]
          simp only [heq]
          exact heq₃
        | gfail m k =>
          refine ⟨.gfail m (some (match k with
            | some nk => if nk == "" then key else key ++ "." ++ nk
            | none => key)), vis₂, ?_, h1, h2⟩
          simp only [validateFieldsAux, hl]
          rw [if_neg hskip]
          simp only [heq]
          cases k <;> rfl

/-- The engine never exhausts fuel covering the unvisited pairs: every
call returns a result and only grows the visited table inside the valid
pairs. -/
theorem gInner_total (env : List GType) (store : List GVal) :
    ∀ fuel ridx addr visited, visited ⊆ gPairBound env store →
      env.length * store.length + 1 ≤ fuel + visited.card →
      ∃ r visited₂, innerValidateG env store fuel ridx addr visited = some (r, visited₂) ∧
        visited ⊆ visited₂ ∧ visited₂ ⊆ gPairBound env store := by
  intro fuel
  induction fuel with
  | zero =>
    intro ridx addr visited hsub hbound
    exfalso
    have hc : visited.card ≤ env.length * store.length := by
      have := Finset.card_le_card hsub
      rwa [gPairBound_card] at this
    omega
  | succ fuel ih =>
    intro ridx addr visited hsub hbound
    by_cases hmem : (ridx, addr) ∈ visited
    · refine ⟨.gok, visited, ?_, Finset.Subset.refl _, hsub⟩
      simp only [innerValidateG]
      rw [if_pos hmem]
    · cases ht : env[ridx]? with
      | none =>
        refine ⟨.gfail "invalid reference" none, visited, ?_, Finset.Subset.refl _, hsub⟩
        simp only [innerValidateG, ht]
        rw [if_neg hmem]
      | some t =>
        cases hv : store[addr]? with
        | none =>
          refine ⟨.gfail "invalid reference" none, visited, ?_, Finset.Subset.refl _, hsub⟩
          simp only [innerValidateG, ht, hv]
          rw [if_neg hmem]
        | some v =>
          have hpair := mem_gPairBound_of_get ht hv
          have hsub' : insert (ridx, addr) visited ⊆ gPairBound env store :=
            Finset.insert_subset hpair hsub
          have hcard' : (insert (ridx, addr) visited).card = visited.card + 1 :=
            Finset.card_insert_of_not_mem hmem
          have hbound' : env.length * store.length + 1 ≤
              fuel + (insert (ridx, addr) visited).card := by omega
          have hsubi : visited ⊆ insert (ridx, addr) visited := Finset.subset_insert _ _
          cases t with
          | gnumber =>
            refine ⟨(match v with
              | .gnum _ => GResult.gok
              | _ => GResult.gfail ("Expected number but was " ++ gtypeof v) none),
              insert (ridx, addr) visited, ?_, hsubi, hsub'⟩
            simp only [innerValidateG, ht, hv]
            rw [if_neg hmem]
            cases v <;> rfl
          | gstring =>
            refine ⟨(match v with
              | .gstr _ => GResult.gok
              | _ => GResult.gfail ("Expected string but was " ++ gtypeof v) none),
              insert (ridx, addr) visited, ?_, hsubi, hsub'⟩
            simp only [innerValidateG, ht, hv]
            rw [if_neg hmem]
            cases v <;> rfl
          | goptional inner =>
            cases v with
            | gundefined =>
              refine ⟨.gok, insert (ridx, addr) visited, ?_, hsubi, hsub'⟩
              simp only [innerValidateG, ht, hv]
              rw [if_neg hmem]
            | gnull =>
              obtain ⟨r, vis₂, heq, h1, h2⟩ := ih inner addr _ hsub' hbound'
              refine ⟨r, vis₂, ?_, Finset.Subset.trans hsubi h1, h2⟩
              simp only [innerValidateG, ht, hv]
              rw [if_neg hmem]
              exact heq
            | gnum n =>
              obtain ⟨r, vis₂, heq, h1, h2⟩ := ih inner addr _ hsub' hbound'
              refine ⟨r, vis₂, ?_, Finset.Subset.trans hsubi h1, h2⟩
              simp only [innerValidateG, ht, hv]
              rw [if_neg hmem]
              exact heq
            | gstr s =>
              obtain ⟨r, vis₂, heq, h1, h2⟩ := ih inner addr _ hsub' hbound'
              refine ⟨r, vis₂, ?_, Finset.Subset.trans hsubi h1, h2⟩
              simp only [innerValidateG, ht, hv]
              rw [if_neg hmem]
              exact heq
            | gobj entries =>
              obtain ⟨r, vis₂, heq, h1, h2⟩ := ih inner addr _ hsub' hbound'
              refine ⟨r, vis₂, ?_, Finset.Subset.trans hsubi h1, h2⟩
              simp only [innerValidateG, ht, hv]
              rw [if_neg hmem]
              exact heq
          | grecord fields isPart isExact =>
            cases hex : (if isExact then gFindExtraKey fields v else none) with
            | some key =>
              refine ⟨GResult.gfail ("Additional field " ++ key) none,
                insert (ridx, addr) visited, ?_, hsubi, hsub'⟩
              simp only [innerValidateG, ht, hv, hex]
              rw [if_neg hmem]
            | none =>
              by_cases hnull : (v = GVal.gnull ∨ v = GVal.gundefined)
              · refine ⟨GResult.gfail "Expected record, but was nullish" none,
                  insert (ridx, addr) visited, ?_, hsubi, hsub'⟩
                simp only [innerValidateG, ht, hv, hex]
                rw [if_neg hmem]
                rw [if_pos hnull]
              · obtain ⟨r, vis₂, heq, h1, h2⟩ :=
                  gFields_total env store fuel ih isPart (gObjEntries v) fields _
                    hsub' hbound'
                refine ⟨r, vis₂, ?_, Finset.Subset.trans hsubi h1, h2⟩
                simp only [innerValidateG, ht, hv, hex]
                rw [if_neg hmem]
                rw [if_neg hnull]
                exact heq

/-- With fuel one more than the number of valid pairs, the engine always
returns a result — on every input, cyclic ones included. -/
theorem gEngine_total (env : List GType) (store : List GVal) (ridx addr : Nat) :
    ∃ r visited₂,
      innerValidateG env store (env.length * store.length + 1) ridx addr ∅ =
        some (r, visited₂) := by
  obtain ⟨r, vis₂, heq, _, _⟩ :=
    gInner_total env store (env.length * store.length + 1) ridx addr ∅
      (Finset.empty_subset _) (by simp)
  exact ⟨r, vis₂, heq⟩

/-- `any` is invariant under permutation of the list. -/
theorem any_perm {α : Type} {l₁ l₂ : List α} (h : l₁.Perm l₂) (p : α → Bool) :
    l₁.any p = l₂.any p := by
  cases hb : l₁.any p with
  | true =>
    obtain ⟨x, hx, hpx⟩ := List.any_eq_true.mp hb
    exact (List.any_eq_true.mpr ⟨x, h.mem_iff.mp hx, hpx⟩).symm
  | false =>
    have hall := List.any_eq_false.mp hb
    exact (List.any_eq_false.mpr (fun x hx => hall x (h.mem_iff.mpr hx))).symm

/-- The union validate is the image of the alternative loop. -/
theorem unionRT_validate (rts : List RuntypeV) (v : ValueV) :
    (UnionRT rts).validate v =
      (match unionCoerce rts v with
        | .ok _ => ResultV.success v
        | .error m => ResultV.failure m) := rfl

/-- A successful argument loop consumed at least as many arguments as
there are parameter descriptors. -/
theorem coerceArgs_ok_length (ts : List ArgRT) (vs ws : List ValueV)
    (h : coerceArgs ts vs = .ok ws) : ts.length ≤ vs.length := by
  induction ts generalizing vs ws with
  | nil => simp
  | cons t ts ih =>
    cases vs with
    | nil => exact absurd h (by simp [coerceArgs])
    | cons v vs =>
      simp only [coerceArgs] at h
      cases hv : t v with
      | rsuccess w =>
        rw [hv] at h
        cases hc : coerceArgs ts vs with
        | ok ws₂ =>
          have := ih vs ws₂ hc
          simp only [List.length_cons]
          omega
        | error e => rw [hc] at h; exact absurd h (by simp)
      | rfailure m k => rw [hv] at h; exact absurd h (by simp)

/-- A run of pointwise-successful validations coerces each argument in
place and leaves the surplus untouched. -/
theorem coerceArgs_append_ok (ts : List ArgRT) (pairs : List (ValueV × ValueV))
    (h : List.Forall₂ (fun (t : ArgRT) (p : ValueV × ValueV) =>
      t p.1 = RResult.rsuccess p.2) ts pairs) (rest : List ValueV) :
    coerceArgs ts (pairs.map Prod.fst ++ rest) = .ok (pairs.map Prod.snd ++ rest) := by
  induction h with
  | nil => rfl
  | cons h₁ h₂ ih =>
    simp only [List.map_cons, List.cons_append, coerceArgs, List.append_eq]
    rw [h₁, ih]

/-- After a prefix of successful validations, the first failing argument
aborts the loop with its own message and key. -/
theorem coerceArgs_first_fail (ts₁ : List ArgRT) (pairs : List (ValueV × ValueV))
    (h : List.Forall₂ (fun (t : ArgRT) (p : ValueV × ValueV) =>
      t p.1 = RResult.rsuccess p.2) ts₁ pairs)
    (t : ArgRT) (ts₂ : List ArgRT) (v : ValueV) (m : String) (k : Option String)
    (hf : t v = .rfailure m k) (rest : List ValueV) :
    coerceArgs (ts₁ ++ t :: ts₂) (pairs.map Prod.fst ++ v :: rest) = .error (m, k) := by
  induction h with
  | nil =>
    simp only [List.map_nil, List.nil_append, coerceArgs]
    rw [hf]
  | cons h₁ h₂ ih =>
    simp only [List.map_cons, List.cons_append, coerceArgs, List.append_eq]
    rw [h₁, ih]

/-! ## The claims -/

/-- C2: for every descriptor and every value, `guard(v)` returns exactly
the boolean `validate(v).success` — `guard` is defined as that projection
(src/index.ts lines 333-335). -/
theorem C2_guard_is_validate_success (rt : RuntypeV) (v : ValueV) :
    rt.guard v = (rt.validate v).isSuccess := rfl

/-- C9: `validate` never raises: a raise from the underlying coerce logic
is caught and converted into the structured failure carrying the raised
message, and a non-raising run yields the structured success
(src/index.ts lines 324-331).  In this embedding a raise is the `error`
branch of the result of the coerce function, and the totality of
`validate` is its
type `ValueV → ResultV`. -/
theorem C9_validate_never_raises (rt : RuntypeV) (v : ValueV) :
    (∀ message, rt.coerce v = .error message → rt.validate v = .failure message) ∧
    (∀ w, rt.coerce v = .ok w → rt.validate v = .success v) := by
  constructor
  · intro message h
    unfold RuntypeV.validate
    rw [h]
  · intro w h
    unfold RuntypeV.validate
    rw [h]

/-- Witness for C9 at the `Number` runtype. -/
theorem C9_witness :
    NumberRT.validate (.vstr "a") = .failure "Expected number but was string" ∧
    NumberRT.validate (.vnum 3) = .success (.vnum 3) :=
  ⟨(C9_validate_never_raises NumberRT (.vstr "a")).1 "Expected number but was string" rfl,
   (C9_validate_never_raises NumberRT (.vnum 3)).2 (.vnum 3) rfl⟩

/-- C10: when coerce succeeds, `validate` returns success whose value is
the original argument, not the return value of coerce (src/index.ts lines
326-327 discard the coerced result); any normalization made by that
return value is unobservable through `validate` — two coerce functions
succeeding on the same input yield the same validate result. -/
theorem C10_validate_returns_original (rt : RuntypeV) (v w : ValueV)
    (h : rt.coerce v = .ok w) :
    rt.validate v = .success v ∧
    (∀ (rt₂ : RuntypeV) (w₂ : ValueV), rt₂.coerce v = .ok w₂ →
      rt₂.validate v = rt.validate v) := by
  constructor
  · unfold RuntypeV.validate
    rw [h]
  · intro rt₂ w₂ h₂
    unfold RuntypeV.validate
    rw [h, h₂]

/-- Witness for C10: a coerce that returns the normalized `0` on the
input `"x"`, whose validate still returns the original `"x"`. -/
theorem C10_witness : normRT.validate (.vstr "x") = .success (.vstr "x") :=
  (C10_validate_returns_original normRT (.vstr "x") (.vnum 0) rfl).1

/-- C4: a union accepts a value exactly when the guard of some alternative
accepts it; acceptance is invariant under permutation of the
alternatives; and when no alternative matches, the failure is the single
message `No alternatives were matched` (the Result of this generation
carries no key field at all, so no nested key exists)
(src/index.ts lines 291-298). -/
theorem C4_union_alternatives (rts : List RuntypeV) (v : ValueV) :
    ((UnionRT rts).guard v = rts.any (fun rt => rt.guard v)) ∧
    (∀ rts₂, rts.Perm rts₂ → (UnionRT rts).guard v = (UnionRT rts₂).guard v) ∧
    ((∀ rt ∈ rts, rt.guard v = false) →
      (UnionRT rts).validate v = .failure "No alternatives were matched") := by
  refine ⟨guard_union_any rts v, ?_, ?_⟩
  · intro rts₂ hperm
    rw [guard_union_any, guard_union_any]
    exact any_perm hperm _
  · intro h
    rw [unionRT_validate, unionCoerce_no_match rts v h]

/-- Witness for C4: order invariance and the no-match failure at a
two-alternative union. -/
theorem C4_witness :
    (UnionRT [NumberRT, StringRT]).guard (.vstr "s") =
      (UnionRT [StringRT, NumberRT]).guard (.vstr "s") ∧
    (UnionRT [NumberRT, StringRT]).validate (.vbool true) =
      .failure "No alternatives were matched" :=
  ⟨(C4_union_alternatives [NumberRT, StringRT] (.vstr "s")).2.1 [StringRT, NumberRT]
      (List.Perm.swap StringRT NumberRT []),
   (C4_union_alternatives [NumberRT, StringRT] (.vbool true)).2.2
      (by intro rt h; fin_cases h <;> rfl)⟩

/-- Zipping ignores elements of the right list beyond the left length. -/
theorem zip_take_length {α β : Type} (l₁ : List α) (l₂ : List β) :
    l₁.zip (l₂.take l₁.length) = l₁.zip l₂ := by
  induction l₁ generalizing l₂ with
  | nil => rfl
  | cons a l₁ ih =>
    cases l₂ with
    | nil => rfl
    | cons b l₂ =>
      simp only [List.length_cons, List.take_succ_cons, List.zip_cons_cons, ih]

/-- C5: a tuple with `strict` true fails whenever the array length
differs from the component count; with `strict` false it fails whenever
the length is below the component count; surplus elements beyond the
component count are never validated or reported (the outcome only
depends on the first `n` elements); and in both modes acceptance is the
conjunction of each positional component guard on its element
(src/index.ts lines 207-226). -/
theorem C5_tuple_length_modes (rts : List RuntypeV) (xs : List ValueV) :
    (xs.length ≠ rts.length →
      (TupleRT rts true).validate (.varr xs) =
        .failure ("Expected array of " ++ toString rts.length ++ " but was " ++
          toString xs.length)) ∧
    (xs.length < rts.length →
      (TupleRT rts false).validate (.varr xs) =
        .failure ("Expected array of " ++ toString rts.length ++ " but was " ++
          toString xs.length)) ∧
    (rts.length ≤ xs.length →
      (TupleRT rts false).guard (.varr xs) =
        (TupleRT rts false).guard (.varr (xs.take rts.length))) ∧
    (rts.length ≤ xs.length →
      (TupleRT rts false).guard (.varr xs) = (rts.zip xs).all (fun p => p.1.guard p.2)) ∧
    (xs.length = rts.length →
      (TupleRT rts true).guard (.varr xs) = (rts.zip xs).all (fun p => p.1.guard p.2)) := by
  have hval : ∀ (strict : Bool) (ys : List ValueV),
      (TupleRT rts strict).validate (.varr ys) =
        (match (TupleRT rts strict).coerce (.varr ys) with
          | .ok _ => ResultV.success (.varr ys)
          | .error m => ResultV.failure m) := fun _ _ => rfl
  have hall : ∀ (strict : Bool) (ys : List ValueV), rts.length ≤ ys.length →
      ¬ (if strict then ys.length ≠ rts.length else ys.length < rts.length) →
      (TupleRT rts strict).guard (.varr ys) = (rts.zip ys).all (fun p => p.1.guard p.2) := by
    intro strict ys hle hcond
    rw [guard_eq_coerce, tupleRT_coerce_varr]
    have hb : (if strict then ys.length != rts.length
        else decide (ys.length < rts.length)) = false := by
      cases strict <;> simpa using hcond
    rw [hb]
    simp only [Bool.false_eq_true, if_false]
    cases hc : coercePositional rts ys with
    | ok u =>
      cases u
      exact ((coercePositional_ok_iff rts ys hle).mp hc).symm
    | error m =>
      cases hzip : (rts.zip ys).all (fun p => p.1.guard p.2) with
      | true =>
        exact absurd ((coercePositional_ok_iff rts ys hle).mpr hzip) (by simp [hc])
      | false => rfl
  refine ⟨?_, ?_, ?_, ?_, ?_⟩
  · intro hne
    rw [hval, tupleRT_coerce_varr]
    have hb : (if true then xs.length != rts.length
        else decide (xs.length < rts.length)) = true := by simpa using hne
    rw [hb]
    simp
  · intro hlt
    rw [hval, tupleRT_coerce_varr]
    have hb : (if false then xs.length != rts.length
        else decide (xs.length < rts.length)) = true := by simpa using hlt
    rw [hb]
    simp
  · intro hle
    rw [hall false xs hle (by simp only [Bool.false_eq_true, if_false]; omega),
      hall false (xs.take rts.length) (by simp only [List.length_take]; omega)
        (by simp only [Bool.false_eq_true, if_false, List.length_take]; omega)]
    rw [zip_take_length rts xs]
  · intro hle
    exact hall false xs hle (by simp only [Bool.false_eq_true, if_false]; omega)
  · intro heq
    exact hall true xs (le_of_eq heq.symm)
      (by simp only [eq_self_iff_true, if_true]; omega)

/-- Witness for C5 at the examples of the spec:
`Tuple(Number, String)` with a one-element array (too few), the strict
rejection of a surplus element, and the non-strict acceptance ignoring
the surplus element. -/
theorem C5_witness :
    (TupleRT [NumberRT, StringRT] true).validate (.varr [.vnum 1]) =
      .failure "Expected array of 2 but was 1" ∧
    (TupleRT [NumberRT, StringRT] true).validate
        (.varr [.vnum 1, .vstr "x", .vstr "extra"]) =
      .failure "Expected array of 2 but was 3" ∧
    (TupleRT [NumberRT, StringRT] false).guard (.varr [.vnum 1, .vstr "x", .vstr "extra"]) =
      (TupleRT [NumberRT, StringRT] false).guard (.varr [.vnum 1, .vstr "x"]) ∧
    (TupleRT [NumberRT, StringRT] false).guard (.varr [.vnum 1, .vstr "x", .vstr "extra"]) =
      (([NumberRT, StringRT].zip [.vnum 1, .vstr "x", .vstr "extra"]).all
        (fun p => p.1.guard p.2)) :=
  ⟨(C5_tuple_length_modes [NumberRT, StringRT] [.vnum 1]).1 (by decide),
   (C5_tuple_length_modes [NumberRT, StringRT] [.vnum 1, .vstr "x", .vstr "extra"]).1
      (by decide),
   (C5_tuple_length_modes [NumberRT, StringRT] [.vnum 1, .vstr "x", .vstr "extra"]).2.2.1
      (by decide),
   (C5_tuple_length_modes [NumberRT, StringRT] [.vnum 1, .vstr "x", .vstr "extra"]).2.2.2.1
      (by decide)⟩

/-- C1: in the record field loop (record.ts lines 109-128), a field is
optional when the record is partial or its descriptor is tagged
`optional`; a required field whose key is absent fails the loop with the
missing-property message and the field name as key; an optional field
whose key is absent is passed over; an optional field present with value
`undefined` is passed over for every field descriptor — its `validate` is
never consulted (the quantification over `rt` is the no-recursion
guarantee); passed-over prefixes leave the loop outcome unchanged; and
on an object input whose keys all appear in the fields mapping the full
record check is exactly the field loop. -/
theorem C1_record_optional_fields (isPart : Bool) (x : ValueV) (key : String)
    (rt : FieldRT) (rest : List (String × FieldRT)) :
    (hasKey key x = false → (isPart || rt.tag == "optional") = false →
      checkFields isPart x ((key, rt) :: rest) =
        .rfailure ("Expected \"" ++ key ++ "\" property to be present, but was missing")
          (some key)) ∧
    (hasKey key x = false → (isPart || rt.tag == "optional") = true →
      checkFields isPart x ((key, rt) :: rest) = checkFields isPart x rest) ∧
    (hasKey key x = true → isUndefV (jGet x key) = true →
      (isPart || rt.tag == "optional") = true →
      checkFields isPart x ((key, rt) :: rest) = checkFields isPart x rest) ∧
    (∀ pre, (∀ f ∈ pre, fieldPasses isPart x f = true) →
      checkFields isPart x (pre ++ (key, rt) :: rest) =
        checkFields isPart x ((key, rt) :: rest)) ∧
    (∀ (fields : List (String × FieldRT)) (entries : List (String × ValueV))
        (isExact : Bool), x = ValueV.vobj entries →
      (isExact = true → findExtraKey fields x = none) →
      recordCheck fields isPart isExact x = checkFields isPart x fields) := by
  refine ⟨?_, ?_, ?_, ?_, ?_⟩
  · intro hk hopt
    simp only [checkFields, hk, Bool.false_eq_true, if_false, hopt, Bool.not_false,
      eq_self_iff_true, if_true]
  · intro hk hopt
    simp only [checkFields, hk, Bool.false_eq_true, if_false, hopt, Bool.not_true]
  · intro hk hu hopt
    simp only [checkFields, hk, hopt, hu, Bool.and_self, eq_self_iff_true, if_true]
  · intro pre hpre
    exact checkFields_append isPart x pre ((key, rt) :: rest) hpre
  · intro fields entries isExact hx hex
    subst hx
    cases isExact with
    | true =>
      have h := hex rfl
      simp only [recordCheck, eq_self_iff_true, if_true, h, isNullish,
        Bool.false_eq_true, if_false]
    | false =>
      simp only [recordCheck, Bool.false_eq_true, if_false, isNullish]

/-- Witness for C1 at the example of the spec
`Record(\x7bname: String, age: Optional(Number)\x7d)`: the empty object is
missing the required `name`; the absent optional `age` is passed over;
and the full record check of the empty object is the field loop. -/
theorem C1_witness :
    checkFields false (ValueV.vobj []) [("name", nameF), ("age", ageF)] =
      .rfailure "Expected \"name\" property to be present, but was missing" (some "name") ∧
    checkFields false (ValueV.vobj [("name", ValueV.vstr "a")]) [("age", ageF)] =
      checkFields false (ValueV.vobj [("name", ValueV.vstr "a")]) [] ∧
    recordCheck [("name", nameF), ("age", ageF)] false true (ValueV.vobj []) =
      checkFields false (ValueV.vobj []) [("name", nameF), ("age", ageF)] :=
  ⟨(C1_record_optional_fields false (ValueV.vobj []) "name" nameF [("age", ageF)]).1
      rfl rfl,
   (C1_record_optional_fields false (ValueV.vobj [("name", ValueV.vstr "a")]) "age" ageF
      []).2.1 rfl rfl,
   (C1_record_optional_fields false (ValueV.vobj []) "name" nameF
      [("age", ageF)]).2.2.2.2 [("name", nameF), ("age", ageF)] [] true
      (by rfl) (fun _ => rfl)⟩

/-- Looking a key up in two fields mappings with the same key sequence
misses in one exactly when it misses in the other. -/
theorem lookup_isNone_same_keys (k : String) (f₁ f₂ : List (String × FieldRT))
    (h : f₁.map Prod.fst = f₂.map Prod.fst) :
    (f₁.lookup k).isNone = (f₂.lookup k).isNone := by
  induction f₁ generalizing f₂ with
  | nil =>
    cases f₂ with
    | nil => rfl
    | cons q rest₂ => simp at h
  | cons p rest ih =>
    cases f₂ with
    | nil => simp at h
    | cons q rest₂ =>
      obtain ⟨kp, rtp⟩ := p
      obtain ⟨kq, rtq⟩ := q
      simp only [List.map_cons, List.cons.injEq] at h
      obtain ⟨hk, hrest⟩ := h
      subst hk
      simp only [List.lookup]
      cases hc : (k == kp) with
      | true => rfl
      | false => exact ih rest₂ hrest

/-- C3: for an exact record, when the input carries a key absent from the
fields mapping, the whole check fails with the message naming the first
such key (in the own key order of the input) and no nested key; the
key is found by the key sweep alone, before any field-by-field
validation, so the rejection is the same for every fields mapping with
the declared key set — in particular even when every declared field of
the input would be valid (record.ts lines 96-102). -/
theorem C3_exact_rejects_extra_keys (fields : List (String × FieldRT)) (isPart : Bool)
    (x : ValueV) (key : String) (h : findExtraKey fields x = some key) :
    key ∈ jsKeys x ∧ (fields.lookup key).isNone = true ∧
    (∀ fields₂ : List (String × FieldRT), fields₂.map Prod.fst = fields.map Prod.fst →
      findExtraKey fields₂ x = some key) ∧
    recordCheck fields isPart true x = .rfailure ("Additional field " ++ key) none := by
  rw [findExtraKey] at h
  refine ⟨List.mem_of_find?_eq_some h, by simpa using List.find?_some h, ?_, ?_⟩
  · intro fields₂ hkeys
    rw [findExtraKey]
    have hp : (fun k => (fields₂.lookup k).isNone) = (fun k => (fields.lookup k).isNone) :=
      funext (fun k => lookup_isNone_same_keys k fields₂ fields hkeys)
    rw [hp]
    exact h
  · simp only [recordCheck, eq_self_iff_true, if_true, findExtraKey, h]

/-- Witness for C3: an exact record over a single `name` field rejects
an input carrying the undeclared key `zzz` even though its `name` field
is valid. -/
theorem C3_witness :
    recordCheck [("name", nameF)] false true
        (.vobj [("name", .vstr "a"), ("zzz", .vnum 1)]) =
      .rfailure "Additional field zzz" none :=
  (C3_exact_rejects_extra_keys [("name", nameF)] false
    (.vobj [("name", .vstr "a"), ("zzz", .vnum 1)]) "zzz" rfl).2.2.2

/-- C7: once the arguments have validated, an async contract wrapper
rejects with the shape-violation message when the result of the wrapped
function is not a promise; when the result is a promise, the resolved
value is checked against the return descriptor — a failure rejects with
the message and key of that descriptor, and otherwise the wrapper resolves to
the resolved value passed through unchanged
(asynccontract.ts lines 33-47). -/
theorem C7_async_return_channel (argTypes : List ArgRT) (returnType : RetRT)
    (f : List ValueV → FnRet) (args coerced : List ValueV)
    (hc : coerceArgs argTypes args = .ok coerced) :
    (∀ v, f coerced = .retOther v →
      enforce argTypes returnType f args =
        .prejected ⟨"Expected function to return a promise, but instead got " ++
          jsToString v, none⟩) ∧
    (∀ v m k, f coerced = .retPromise (.presolved v) → returnType v = some (m, k) →
      enforce argTypes returnType f args = .prejected ⟨m, k⟩) ∧
    (∀ v, f coerced = .retPromise (.presolved v) → returnType v = none →
      enforce argTypes returnType f args = .presolved v) := by
  have hlen := coerceArgs_ok_length argTypes args coerced hc
  have hnlt : ¬ (args.length < argTypes.length) := by omega
  refine ⟨?_, ?_, ?_⟩
  · intro v hf
    simp only [enforce]
    rw [if_neg hnlt]
    simp only [hc, hf]
  · intro v m k hf hr
    simp only [enforce]
    rw [if_neg hnlt]
    simp only [hc, hf, hr]
  · intro v hf hr
    simp only [enforce]
    rw [if_neg hnlt]
    simp only [hc, hf, hr]

/-- Witness for C7: a one-number-argument contract with a number return
descriptor — a non-promise result, a promise resolving to an invalid
value, and a promise resolving to a valid value. -/
theorem C7_witness :
    enforce [numArg] numRet (fun _ => .retOther (.vnum 7)) [.vnum 1] =
      .prejected ⟨"Expected function to return a promise, but instead got 7", none⟩ ∧
    enforce [numArg] numRet (fun _ => .retPromise (.presolved (.vstr "s"))) [.vnum 1] =
      .prejected ⟨"Expected number but was string", none⟩ ∧
    enforce [numArg] numRet (fun _ => .retPromise (.presolved (.vnum 2))) [.vnum 1] =
      .presolved (.vnum 2) :=
  ⟨(C7_async_return_channel [numArg] numRet (fun _ => .retOther (.vnum 7))
      [.vnum 1] [.vnum 1] rfl).1 (.vnum 7) rfl,
   (C7_async_return_channel [numArg] numRet (fun _ => .retPromise (.presolved (.vstr "s")))
      [.vnum 1] [.vnum 1] rfl).2.1 (.vstr "s") "Expected number but was string" none rfl rfl,
   (C7_async_return_channel [numArg] numRet (fun _ => .retPromise (.presolved (.vnum 2)))
      [.vnum 1] [.vnum 1] rfl).2.2 (.vnum 2) rfl rfl⟩

/-- C8: an async contract wrapper invoked with fewer positional
arguments than declared parameters rejects with the arity-shortfall
message, for every wrapped function (so the wrapped function is never
consulted); with enough arguments, the arguments are validated in
declaration order and the first invalid one rejects with its message and
key, again for every wrapped function; and a run of pointwise-successful
validations substitutes each coerced value in place, surplus arguments
passing through untouched (asynccontract.ts lines 16-32). -/
theorem C8_async_arity_order (argTypes : List ArgRT) (returnType : RetRT)
    (args : List ValueV) :
    (args.length < argTypes.length → ∀ f,
      enforce argTypes returnType f args =
        .prejected ⟨"Expected " ++ toString argTypes.length ++
          " arguments but only received " ++ toString args.length, none⟩) ∧
    (∀ (ts₁ ts₂ : List ArgRT) (t : ArgRT) (pairs : List (ValueV × ValueV))
        (v : ValueV) (rest : List ValueV) (m : String) (k : Option String),
      List.Forall₂ (fun (t : ArgRT) (p : ValueV × ValueV) =>
        t p.1 = RResult.rsuccess p.2) ts₁ pairs →
      t v = .rfailure m k → ts₂.length ≤ rest.length →
      argTypes = ts₁ ++ t :: ts₂ → args = pairs.map Prod.fst ++ v :: rest →
      ∀ f, enforce argTypes returnType f args = .prejected ⟨m, k⟩) ∧
    (∀ (pairs : List (ValueV × ValueV)) (rest : List ValueV),
      List.Forall₂ (fun (t : ArgRT) (p : ValueV × ValueV) =>
        t p.1 = RResult.rsuccess p.2) argTypes pairs →
      args = pairs.map Prod.fst ++ rest →
      coerceArgs argTypes args = .ok (pairs.map Prod.snd ++ rest)) := by
  refine ⟨?_, ?_, ?_⟩
  · intro hlt f
    simp only [enforce]
    rw [if_pos hlt]
  · intro ts₁ ts₂ t pairs v rest m k hfa hf hrest hat hargs f
    subst hat
    subst hargs
    have hlen1 : ts₁.length = pairs.length := hfa.length_eq
    have hnlt : ¬ ((pairs.map Prod.fst ++ v :: rest).length < (ts₁ ++ t :: ts₂).length) := by
      simp only [List.length_append, List.length_map, List.length_cons]
      omega
    have hcf := coerceArgs_first_fail ts₁ pairs hfa t ts₂ v m k hf rest
    simp only [enforce]
    rw [if_neg hnlt]
    simp only [hcf]
  · intro pairs rest hfa hargs
    subst hargs
    exact coerceArgs_append_ok argTypes pairs hfa rest

/-- Witness for C8: the arity rejection on a missing argument, the
first-invalid-argument rejection, and in-place coercion of a valid run. -/
theorem C8_witness :
    enforce [numArg] numRet (fun _ => .retPromise (.presolved (.vnum 1))) [] =
      .prejected ⟨"Expected 1 arguments but only received 0", none⟩ ∧
    enforce [numArg, numArg] numRet (fun _ => .retPromise (.presolved (.vnum 1)))
        [.vnum 5, .vstr "b"] =
      .prejected ⟨"Expected number but was string", none⟩ ∧
    coerceArgs [numArg] [.vnum 5] = .ok [.vnum 5] :=
  ⟨(C8_async_arity_order [numArg] numRet []).1 (by decide)
      (fun _ => .retPromise (.presolved (.vnum 1))),
   (C8_async_arity_order [numArg, numArg] numRet [.vnum 5, .vstr "b"]).2.1
      [numArg] [] numArg [(.vnum 5, .vnum 5)] (.vstr "b") []
      "Expected number but was string" none
      (List.Forall₂.cons rfl List.Forall₂.nil) rfl (by decide) rfl rfl
      (fun _ => .retPromise (.presolved (.vnum 1))),
   (C8_async_arity_order [numArg] numRet [.vnum 5]).2.2 [(.vnum 5, .vnum 5)] []
      (List.Forall₂.cons rfl List.Forall₂.nil) rfl⟩

/-- C6: `Lazy(fn)` does not invoke `fn` at construction (the fresh memo
slot is empty and the invocation count zero); the first use invokes `fn`
once, caches the resulting runtype and delegates to it; every later use
delegates to the cached runtype with the state — and in particular the
invocation count — unchanged; consequently `Lazy(() => D)` coerces every
value exactly as `D` does (all inductive values are acyclic); and for
cyclic data mirroring a recursive descriptor shape, the visited-table
engine modelled from the spec terminates: with fuel covering the
descriptor-value pairs it returns a result on every input, cyclic ones
included (src/index.ts lines 310-317; spec section 4.2 for the engine). -/
theorem C6_lazy_memoization (fn : Unit → RuntypeV) (D : RuntypeV) (x : ValueV)
    (st : LazyState) :
    (mkLazy.cached = none ∧ mkLazy.calls = 0) ∧
    (st.cached = none →
      lazyCoerce fn st x = ((fn ()).coerce x, ⟨some (fn ()), st.calls + 1⟩)) ∧
    (∀ c, st.cached = some c → lazyCoerce fn st x = (c.coerce x, st)) ∧
    ((st.cached = none ∨ st.cached = some D) →
      (lazyCoerce (fun _ => D) st x).1 = D.coerce x) ∧
    (∀ (env : List GType) (store : List GVal) (ridx addr : Nat),
      ∃ r visited₂,
        innerValidateG env store (env.length * store.length + 1) ridx addr ∅ =
          some (r, visited₂)) := by
  refine ⟨⟨rfl, rfl⟩, ?_, ?_, ?_, ?_⟩
  · intro h
    simp only [lazyCoerce, h]
  · intro c h
    simp only [lazyCoerce, h]
  · intro h
    cases h with
    | inl h => simp only [lazyCoerce, h]
    | inr h => simp only [lazyCoerce, h]
  · intro env store ridx addr
    exact gEngine_total env store ridx addr

/-- Witness for C6: the first use of a lazy `Number` runtype resolves and
caches it, a later use leaves the state untouched, and the engine
finishes on the one-cell cyclic object validated against the recursive
record descriptor. -/
theorem C6_witness :
    lazyCoerce (fun _ => NumberRT) mkLazy (.vnum 3) =
      (.ok (.vnum 3), ⟨some NumberRT, 1⟩) ∧
    lazyCoerce (fun _ => NumberRT) ⟨some NumberRT, 1⟩ (.vnum 4) =
      (.ok (.vnum 4), ⟨some NumberRT, 1⟩) ∧
    (lazyCoerce (fun _ => NumberRT) mkLazy (.vnum 3)).1 = NumberRT.coerce (.vnum 3) ∧
    (∃ r visited₂,
      innerValidateG cycEnv cycStore (cycEnv.length * cycStore.length + 1) 0 0 ∅ =
        some (r, visited₂)) :=
  ⟨(C6_lazy_memoization (fun _ => NumberRT) NumberRT (.vnum 3) mkLazy).2.1 rfl,
   (C6_lazy_memoization (fun _ => NumberRT) NumberRT (.vnum 4)
      ⟨some NumberRT, 1⟩).2.2.1 NumberRT rfl,
   (C6_lazy_memoization (fun _ => NumberRT) NumberRT (.vnum 3) mkLazy).2.2.2.1
      (Or.inl rfl),
   (C6_lazy_memoization (fun _ => NumberRT) NumberRT (.vnum 3) mkLazy).2.2.2.2
      cycEnv cycStore 0 0⟩

/-- The engine run of the cyclic witness in full: validating the
self-referential object against the recursive record descriptor
terminates with a tentative success after one revisit. -/
theorem cyclic_record_demo :
    innerValidateG cycEnv cycStore 2 0 0 ∅ = some (.gok, {(0, 0)}) := rfl

end Runtypes
